import Mathlib

/-!
Shallow embedding of the cnpjmei repository's extraction engine and job
dispatcher: the currency/amount parsing and table classification of
`extractDebits`, the `safeExtractDebits` retry wrapper, the year filter
`getAvailableYears`, the per-year persistence loops, the dispatcher cache
(`getFromCache` / `setToCache` / `makeKey` / `sanitizeCNPJ`) and the late
company-name overwrite of the aggregate file.

Modelling conventions:
* JavaScript strings are Lean `String`s; positions count characters, which
  agrees with UTF-16 code units for all BMP text handled by the program.
* The global-flagged regex `/R\$\s*[\d\.]+,\d{2}|[\d\.]+,\d{2}/g` is used in
  the source through `.test(...)`, which in JavaScript is stateful: the
  regex object's `lastIndex` survives between calls.  It is modelled by
  `currencyTest`, an explicit `lastIndex`-passing matcher, and the state is
  threaded through the table/row scans exactly as the single regex object is
  shared in the source.
* `Number(...)` applied to the cleaned amount strings is modelled by
  `jsNumber`, covering the sign + plain decimal fragment of the JavaScript
  grammar (exponent, hexadecimal and infinity forms never arise from the
  strings this program builds and map to `nan` here).
* Fallible operations return `Except`/`Option`; a JS object literal built by
  a sequence of key assignments is modelled as the ordered list of those
  assignments.
-/

/-- JS `\s` restricted to the whitespace characters this program handles. -/
def isJsSpace (c : Char) : Bool := c = ' ' || c = '\t' || c = '\n' || c = '\r'

/-- Head-of-list lookahead used by the split model. -/
def nextIsSpace : List Char → Bool
  | [] => false
  | c :: _ => isJsSpace c

/-- JS `String.prototype.trim` on the modelled whitespace alphabet. -/
def jsTrim (s : String) : String :=
  String.mk (((s.toList.dropWhile isJsSpace).reverse.dropWhile isJsSpace).reverse)

/-- JS `String.prototype.toLowerCase` on the alphabet occurring in this
program (ASCII plus the accented capitals of the Portuguese labels). -/
def lowerBR (c : Char) : Char :=
  if 'A' ≤ c && c ≤ 'Z' then Char.ofNat (c.toNat + 32)
  else if c = 'Ã' then 'ã'
  else if c = 'Á' then 'á'
  else if c = 'Â' then 'â'
  else if c = 'É' then 'é'
  else if c = 'Ê' then 'ê'
  else if c = 'Í' then 'í'
  else if c = 'Ó' then 'ó'
  else if c = 'Õ' then 'õ'
  else if c = 'Ú' then 'ú'
  else if c = 'Ç' then 'ç'
  else c

/-- Character-wise lowercasing of a string. -/
def lowerStr (s : String) : String := String.mk (s.toList.map lowerBR)

/-- `needle.isPrefixOf hay`, written out so every definition in this file is
elementary structural recursion. -/
def leadMatches : List Char → List Char → Bool
  | [], _ => true
  | _ :: _, [] => false
  | a :: as, b :: bs => a = b && leadMatches as bs

/-- JS `String.prototype.includes`: substring containment. -/
def strContains (hay needle : String) : Bool :=
  hay.toList.tails.any (fun t => leadMatches needle.toList t)

/-- `[\d\.]` — the character class of the currency regex's mantissa. -/
def isDigitDot (c : Char) : Bool := c.isDigit || c = '.'

/-- Length consumed by `[\d\.]+,\d{2}` anchored at the head of `l`, if it
matches there.  The mantissa run is maximal; since `,` is outside the class,
regex backtracking can never pick a shorter run, so the match is decided by
the two digits after the first `,` that follows the maximal run. -/
def matchBLen (l : List Char) : Option Nat :=
  let n := (l.takeWhile isDigitDot).length
  if n = 0 then none
  else
    match l.drop n with
    | c :: d1 :: d2 :: _ =>
        if c = ',' && d1.isDigit && d2.isDigit then some (n + 3) else none
    | _ => none

/-- Length consumed by `R\$\s*[\d\.]+,\d{2}` anchored at the head of `l`.
`\s` and `[\d\.]` are disjoint, so the greedy whitespace run cannot
backtrack either. -/
def matchALen : List Char → Option Nat
  | 'R' :: '$' :: rest =>
      let w := (rest.takeWhile isJsSpace).length
      (matchBLen (rest.drop w)).map (fun m => 2 + w + m)
  | _ => none

/-- Anchored match of the full alternation, first alternative preferred, as
in the JavaScript regex engine. -/
def matchLenAt (l : List Char) : Option Nat :=
  match matchALen l with
  | some m => some m
  | none => matchBLen l

/-- Leftmost match search: `i` is the absolute index of the head of `l`;
returns the absolute end index of the first match. -/
def currencyScanAux : List Char → Nat → Option Nat
  | [], _ => none
  | c :: t, i =>
      match matchLenAt (c :: t) with
      | some m => some (i + m)
      | none => currencyScanAux t (i + 1)

/-- `currencyRegex.test(s)` for the shared `g`-flagged regex object: takes
the current `lastIndex`, returns the verdict and the updated `lastIndex`
(the match end on success, `0` on failure — JavaScript resets it). -/
def currencyTest (s : String) (lastIndex : Nat) : Bool × Nat :=
  match currencyScanAux (s.toList.drop lastIndex) lastIndex with
  | some e => (true, e)
  | none => (false, 0)

/-- `extractDebits` of `scrape_playwright.js`: verdict of the container
filter `!currencyRegex.test(text) && !text.includes(String(year))` (negated:
`true` means the container is processed), together with the regex state it
leaves behind.  The test is evaluated first, so the state advances even when
the year check decides. -/
def containerFilterStep (year : String) (text : String) (li : Nat) : Bool × Nat :=
  let tr := currencyTest text li
  (tr.1 || strContains text year, tr.2)

/-- The container-filter verdicts for a page's successive table-like
containers, sharing one regex object as the source does. -/
def acceptedContainers (year : String) (texts : List String) : List Bool :=
  (texts.foldl
    (fun st txt =>
      let r := containerFilterStep year txt st.2
      (st.1 ++ [r.1], r.2))
    (([] : List Bool), 0)).1

/-- `normalizeCNPJ` of both scrapers: `String(raw).replace(/\D/g, '')`. -/
def normalizeCNPJ (s : String) : String :=
  String.mk (s.toList.filter Char.isDigit)

/-- `sanitizeCNPJ` of the dispatcher: falsy input (absent or the empty
string) yields `null`, otherwise the digit characters. -/
def sanitizeCNPJ : Option String → Option String
  | none => none
  | some s => if s = "" then none else some (normalizeCNPJ s)

/-- Splitter for `rowText.split(/\t+|\s{2,}/)`: a separator is a maximal run
of tabs, or (tried second at each position) a whitespace run of length at
least two.  Fuelled so that the definition is structural and reduces in the
kernel; the fuel `s.length + 1` can never be exhausted since every step
consumes at least one character. -/
def splitGo : Nat → List Char → List Char → List String
  | _, [], cur => [String.mk cur.reverse]
  | 0, l, cur => [String.mk (cur.reverse ++ l)]
  | n + 1, '\t' :: rest, cur =>
      String.mk cur.reverse :: splitGo n (rest.dropWhile (fun d => d = '\t')) []
  | n + 1, c :: rest, cur =>
      if isJsSpace c && nextIsSpace rest then
        String.mk cur.reverse :: splitGo n (rest.dropWhile isJsSpace) []
      else splitGo n rest (c :: cur)

/-- `rowText.split(/\t+|\s{2,}/).map(s => s.trim()).filter(Boolean)`. -/
def splitParts (s : String) : List String :=
  ((splitGo (s.length + 1) s.toList []).map jsTrim).filter (fun t => t ≠ "")

/-- Anchored `\d+[\.,]\d{2}`: a maximal digit run at the head followed by a
dot or comma and two digits ( `.`/`,` are not digits, so greediness again
cannot backtrack inside the run). -/
def tokenMatchAt (l : List Char) : Bool :=
  let n := (l.takeWhile Char.isDigit).length
  if n = 0 then false
  else
    match l.drop n with
    | c :: d1 :: d2 :: _ => (c = '.' || c = ',') && d1.isDigit && d2.isDigit
    | _ => false

/-- `/\d+[\.,]\d{2}/.test(p)` — unanchored, no `g` flag, hence stateless. -/
def tokenHasAmount (p : String) : Bool := p.toList.tails.any tokenMatchAt

/-- A comma-delimited two-digit fractional part (`\d+,\d{2}` anchored),
the shape the specification's null-amount clause speaks about. -/
def commaMatchAt (l : List Char) : Bool :=
  let n := (l.takeWhile Char.isDigit).length
  if n = 0 then false
  else
    match l.drop n with
    | c :: d1 :: d2 :: _ => c = ',' && d1.isDigit && d2.isDigit
    | _ => false

/-- Whether some token substring has a comma-delimited two-digit fraction. -/
def hasCommaFrac (p : String) : Bool := p.toList.tails.any commaMatchAt

/-- The character class `[R\$\s\.]` stripped by the amount cleanup. -/
def stripChar (c : Char) : Bool := c = 'R' || c = '$' || isJsSpace c || c = '.'

/-- `String.prototype.replace(',', '.')` with a string pattern: only the
first comma is replaced. -/
def replaceFirstComma : List Char → List Char
  | [] => []
  | c :: rest => if c = ',' then '.' :: rest else c :: replaceFirstComma rest

/-- `p.replace(/[R\$\s\.]/g, '').replace(',', '.')`. -/
def cleanAmount (p : String) : String :=
  String.mk (replaceFirstComma (p.toList.filter (fun c => !stripChar c)))

/-- A JavaScript number produced by `Number(...)` on the strings this
program builds: `nan`, or the exact value `num / den` with `den` a power of
ten (kept unreduced so that all arithmetic is kernel-computable). -/
inductive JsNum where
  | nan : JsNum
  | val : Int → Nat → JsNum
deriving DecidableEq

/-- Reading of a `JsNum` as an exact rational (NaN reads as `none`). -/
def jsNumAsRat : JsNum → Option ℚ
  | JsNum.nan => none
  | JsNum.val n d => some ((n : ℚ) / (d : ℚ))

/-- Decimal digit string to `Nat`. -/
def digitsToNat (l : List Char) : Nat :=
  l.foldl (fun a c => 10 * a + (c.toNat - 48)) 0

/-- The unsigned decimal fragment of `Number(...)`: `digits`, `digits.`,
`digits.digits` or `.digits`; anything else is NaN. -/
def jsUnsigned (l : List Char) : JsNum :=
  let ip := l.takeWhile Char.isDigit
  let rest := l.dropWhile Char.isDigit
  match rest with
  | [] => if ip.isEmpty then JsNum.nan else JsNum.val (digitsToNat ip) 1
  | '.' :: frac =>
      if frac.all Char.isDigit && !(ip.isEmpty && frac.isEmpty) then
        JsNum.val (digitsToNat (ip ++ frac)) (10 ^ frac.length)
      else JsNum.nan
  | _ => JsNum.nan

/-- `Number(s)` on the sign + plain decimal fragment ( `Number('') = 0` ). -/
def jsNumber (s : String) : JsNum :=
  match s.toList with
  | [] => JsNum.val 0 1
  | '-' :: rest =>
      match jsUnsigned rest with
      | JsNum.val n d => JsNum.val (-n) d
      | JsNum.nan => JsNum.nan
  | '+' :: rest => jsUnsigned rest
  | l => jsUnsigned l

/-- Cell tag: `th` or `td`. -/
inductive CellTag where
  | th : CellTag
  | td : CellTag
deriving DecidableEq

/-- One table cell: its tag and its `innerText`. -/
structure HtmlCell where
  tag : CellTag
  text : String
deriving DecidableEq

/-- One `tr`: its cells in document order. -/
structure HtmlRow where
  cells : List HtmlCell
deriving DecidableEq

/-- One `table`: its rows in document order. -/
structure HtmlTable where
  rows : List HtmlRow
deriving DecidableEq

/-- `innerText` of a row: cell texts joined by tabs, as browsers render
simple table rows. -/
def rowInnerText (r : HtmlRow) : String :=
  String.intercalate "\t" (r.cells.map (fun c => c.text))

/-- `innerText` of a table: row texts joined by newlines. -/
def tableInnerText (t : HtmlTable) : String :=
  String.intercalate "\n" (t.rows.map rowInnerText)

/-- `table.querySelectorAll('th')` texts, in document order. -/
def tableThTexts (t : HtmlTable) : List String :=
  (((t.rows.map (fun r => r.cells)).flatten).filter
    (fun c => match c.tag with | CellTag.th => true | CellTag.td => false)).map
    (fun c => c.text)

/-- `normalizeHeader`: collapse whitespace runs to one space, trim, lower. -/
def collapseWsGo : List Char → Bool → List Char
  | [], _ => []
  | c :: rest, prevSpace =>
      if isJsSpace c then
        if prevSpace then collapseWsGo rest true
        else ' ' :: collapseWsGo rest true
      else c :: collapseWsGo rest false

/-- `normalizeHeader(s)` of `server.js`'s embedded extractor. -/
def normalizeHeader (s : String) : String :=
  lowerStr (jsTrim (String.mk (collapseWsGo s.toList false)))

/-- The canonical header vocabulary of the `server.js` / puppeteer
extractors. -/
def expectedHeaders : List String :=
  ["período de apuração", "apurado", "benefício inss", "resumo do das a ser gerado",
   "principal", "multa", "juros", "total", "data de vencimento", "data de acolhimento"]

/-- `expectedHeaders.indexOf(h)`. -/
def indexIn : List String → String → Option Nat
  | [], _ => none
  | a :: rest, h => if a = h then some 0 else (indexIn rest h).map (fun i => i + 1)

/-- `idx >= 0 ? expectedHeaders[idx] : h` for `idx = indexOf(h)`. -/
def mapKeyFor (h : String) : String :=
  match indexIn expectedHeaders h with
  | some i => expectedHeaders.getD i h
  | none => h

/-- `headers.map(h => ...)` producing the canonical key row. -/
def mapKeysOf (headers : List String) : List String := headers.map mapKeyFor

/-- Header texts of a table: all `th` cells if any exist, else the first
row's cells, each normalized. -/
def headersOf (t : HtmlTable) : List String :=
  let ths := tableThTexts t
  if ths.isEmpty then
    match t.rows with
    | [] => []
    | r :: _ => r.cells.map (fun c => normalizeHeader c.text)
  else ths.map normalizeHeader

/-- `(cells[k] && (cells[k].innerText || '').trim()) || null`. -/
def cellValOpt (r : HtmlRow) (k : Nat) : Option String :=
  match r.cells[k]? with
  | some c => let v := jsTrim c.text; if v = "" then none else some v
  | none => none

/-- One extracted record: either a header-mapped object (the ordered list of
its key assignments) or the loose raw/parts/amount fallback shape. -/
inductive DebitRecord where
  | mapped : List (String × Option String) → DebitRecord
  | loose : String → List String → Option JsNum → DebitRecord
deriving DecidableEq

/-- The amount field of a loose record. -/
def amountOf : DebitRecord → Option JsNum
  | DebitRecord.loose _ _ a => a
  | DebitRecord.mapped _ => none

/-- Whether a record has the raw/parts/amount fallback shape. -/
def isLooseShape : DebitRecord → Bool
  | DebitRecord.loose _ _ _ => true
  | DebitRecord.mapped _ => false

/-- The `k`-th key assignment of a header-mapped record. -/
def recFieldAt : DebitRecord → Nat → Option (String × Option String)
  | DebitRecord.mapped fs, k => fs[k]?
  | DebitRecord.loose _ _ _, _ => none

/-- Header-branch row conversion: zip the row's cells against the mapped
header keys, `col_k` standing in for an empty header text. -/
def mappedRow (mapKeys : List String) (r : HtmlRow) : DebitRecord :=
  DebitRecord.mapped ((List.range mapKeys.length).map (fun k =>
    ((let mk := mapKeys.getD k ""
      if mk = "" then "col_" ++ toString k else mk),
     cellValOpt r k)))

/-- Loose-branch record for one row text. -/
def looseRecord (rowText : String) : DebitRecord :=
  let parts := splitParts rowText
  let amountPart := parts.reverse.find? tokenHasAmount
  let amountStr := amountPart.map cleanAmount
  DebitRecord.loose rowText parts
    (match amountStr with
     | some s => if s = "" then none else some (jsNumber s)
     | none => none)

/-- Loose-branch scan over a table's rows: empty rows are skipped; a row is
kept when its text contains the year (checked first, short-circuiting) or
when the shared currency regex matches it from its current `lastIndex`. -/
def looseRows (year : String) : List HtmlRow → Nat → List DebitRecord × Nat
  | [], li => ([], li)
  | r :: rest, li =>
      let rowText := jsTrim (rowInnerText r)
      if rowText = "" then looseRows year rest li
      else if strContains rowText year then
        let p := looseRows year rest li
        (looseRecord rowText :: p.1, p.2)
      else
        let tr := currencyTest rowText li
        if tr.1 then
          let p := looseRows year rest tr.2
          (looseRecord rowText :: p.1, p.2)
        else looseRows year rest tr.2

/-- Per-table step of `extractDebits` (`server.js` embedded extractor):
currency filter, then header-driven mapping when some normalized header is
in the canonical vocabulary, else the loose row scan. -/
def processTable (year : String) (t : HtmlTable) (li : Nat) : List DebitRecord × Nat :=
  let pr := currencyTest (tableInnerText t) li
  if pr.1 then
    let headers := headersOf t
    if headers.any (fun h => decide (h ∈ expectedHeaders)) && !headers.isEmpty then
      ((t.rows.drop 1).map (mappedRow (mapKeysOf headers)), pr.2)
    else looseRows year t.rows pr.2
  else ([], pr.2)

/-- `extractDebits(page, year)`: fold the per-table step over the page's
tables, sharing the single regex object's state. -/
def extractDebits (year : String) (tables : List HtmlTable) : List DebitRecord :=
  (tables.foldl
    (fun st t =>
      let p := processTable year t st.2
      (st.1 ++ p.1, p.2))
    (([] : List DebitRecord), 0)).1

/-- Error classifier of `safeExtractDebits`: the message marks a transient
context invalidation when it contains either fragment (the second subsumes
the first, exactly as in the source). -/
def isContextError (msg : String) : Bool :=
  strContains msg "Execution context was destroyed" ||
    strContains msg "Execution context"

/-- The retry loop of `safeExtractDebits`: `op i` is the outcome of the
`i`-th `await extractDebits(...)` attempt (the fixed sleep between attempts
has no observable effect here); the second argument counts the remaining
iterations of `for (let i = 0; i < tries; i++)`. -/
def safeExtractGo (op : Nat → Except String (List DebitRecord)) :
    Nat → Nat → Except String (List DebitRecord)
  | _, 0 => Except.ok []
  | i, rem + 1 =>
      match op i with
      | Except.ok r => Except.ok r
      | Except.error e =>
          if isContextError e then safeExtractGo op (i + 1) rem
          else Except.error e

/-- `safeExtractDebits(page, year, tries)`. -/
def safeExtractDebits (op : Nat → Except String (List DebitRecord)) (tries : Nat) :
    Except String (List DebitRecord) :=
  safeExtractGo op 0 tries

/-- A `<select>` option as the scrapers read it: `value`, trimmed
`innerText`, the `disabled` property and whether its class list contains
`disabled`. -/
structure SelectOption where
  value : String
  text : String
  disabledProp : Bool
  classDisabled : Bool
deriving DecidableEq

/-- `o.disabled || o.classList.contains('disabled')`. -/
def optDisabled (o : SelectOption) : Bool := o.disabledProp || o.classDisabled

/-- `/não optante/i.test(s)`. -/
def naoOptante (s : String) : Bool := strContains (lowerStr s) "não optante"

/-- `/^\d{4}$/.test(s)`. -/
def isFourDigits (s : String) : Bool := s.length == 4 && s.toList.all Char.isDigit

/-- `getAvailableYears`, select branch, of the `server.js` embedded scraper
and the puppeteer scraper:
`opts.filter(o => o.text && !/não optante/i.test(o.text) && !o.disabled)`. -/
def srvYearsFromSelect (opts : List SelectOption) : List SelectOption :=
  opts.filter (fun o => (o.text != "") && !naoOptante o.text && !optDisabled o)

/-- A scanned element (`a, button, span, div`): trimmed text and the three
disabled signals the scan branch reads. -/
structure ScanElem where
  text : String
  ariaDisabled : Option String
  disabledAttr : Option String
  classAttr : Option String
deriving DecidableEq

/-- `aria-disabled === 'true' || getAttribute('disabled') !== null ||
(class || '').includes('disabled')`. -/
def scanDisabled (e : ScanElem) : Bool :=
  (e.ariaDisabled == some "true") || e.disabledAttr.isSome ||
    strContains (e.classAttr.getD "") "disabled"

/-- `getAvailableYears`, element-scan branch, of the `server.js` embedded
scraper: keep elements whose text is exactly four digits, not marked
"não optante" and not disabled. -/
def srvYearsFromScan (els : List ScanElem) : List ScanElem :=
  els.filter (fun e => isFourDigits e.text && !naoOptante e.text && !scanDisabled e)

/-- `getAvailableYears` of `scrape_playwright.js`, select branch, `available`
output: `allOpts.filter(o => o.text && !o.disabled &&
/^\d{4}$/.test(o.value || o.text))` — note that the option text is never
tested against the "não optante" marker here. -/
def spAvailableFromSelect (opts : List SelectOption) : List SelectOption :=
  opts.filter (fun o =>
    (o.text != "") && !optDisabled o &&
      isFourDigits (if o.value != "" then o.value else o.text))

/-- One year's extraction outcome, abstracting `safeExtractDebits`'s value
inside the per-year loops. -/
structure YearOutcome where
  yearLabel : String
  items : List DebitRecord
deriving DecidableEq

/-- A file write performed by a run: one per-year payload
(`debitos_<year>.json`) or the combined payload (`debitos_all.json`). -/
inductive FileEvent where
  | perYear : String → String → List DebitRecord → FileEvent
  | combined : String → List (String × List DebitRecord) → FileEvent
deriving DecidableEq

/-- Loop body of `scrapeAllYearsSequential` (`scrape_playwright.js`): the
per-year file is written only when `found.length` is non-zero, but the pair
is always pushed onto `all`. -/
def spStep (cnpj : String)
    (st : List FileEvent × List (String × List DebitRecord)) (o : YearOutcome) :
    List FileEvent × List (String × List DebitRecord) :=
  ((if o.items.isEmpty then st.1
    else st.1 ++ [FileEvent.perYear o.yearLabel cnpj o.items]),
   st.2 ++ [(o.yearLabel, o.items)])

/-- `scrapeAllYearsSequential` followed by the aggregate write. -/
def spRun (cnpj : String) (outcomes : List YearOutcome) : List FileEvent :=
  let st := outcomes.foldl (spStep cnpj) ([], [])
  st.1 ++ [FileEvent.combined cnpj st.2]

/-- Loop body of the puppeteer per-year loop (`scrape.js`): when a year
yields no records, neither the file write nor the `all.push` happens. -/
def ppStep (cnpj : String)
    (st : List FileEvent × List (String × List DebitRecord)) (o : YearOutcome) :
    List FileEvent × List (String × List DebitRecord) :=
  if o.items.isEmpty then st
  else (st.1 ++ [FileEvent.perYear o.yearLabel cnpj o.items],
        st.2 ++ [(o.yearLabel, o.items)])

/-- The puppeteer per-year loop followed by the aggregate write. -/
def ppRun (cnpj : String) (outcomes : List YearOutcome) : List FileEvent :=
  let st := outcomes.foldl (ppStep cnpj) ([], [])
  st.1 ++ [FileEvent.combined cnpj st.2]

/-- One dispatcher cache entry: creation timestamp and cached value. -/
structure CacheEntry (V : Type) where
  ts : Int
  value : V
deriving DecidableEq

/-- The dispatcher's `Map`, modelled as its entries in insertion order. -/
abbrev CacheMap (V : Type) := List (String × CacheEntry V)

/-- `CACHE_TTL = 1000 * 60 * 10`. -/
def CACHE_TTL : Int := 1000 * 60 * 10

/-- `CACHE_MAX = 200`. -/
def CACHE_MAX : Nat := 200

/-- `cache.get(key)`. -/
def mapGet {V : Type} (m : CacheMap V) (k : String) : Option (CacheEntry V) :=
  (m.find? (fun p => p.1 == k)).map (fun p => p.2)

/-- `cache.delete(key)` (keys are unique in a `Map`). -/
def mapDelete {V : Type} (m : CacheMap V) (k : String) : CacheMap V :=
  m.filter (fun p => p.1 != k)

/-- `cache.set(key, e)`: update in place if the key is present, else append
at the newest insertion position. -/
def mapSet {V : Type} (m : CacheMap V) (k : String) (e : CacheEntry V) : CacheMap V :=
  if (m.find? (fun p => p.1 == k)).isSome then
    m.map (fun p => if p.1 == k then (k, e) else p)
  else m ++ [(k, e)]

/-- `getFromCache(key)` at wall-clock `now`, returning the response and the
updated map: a miss for absent keys, deletion + miss for stale entries, and
delete + re-insert (same entry object, same timestamp) for fresh hits. -/
def getFromCache {V : Type} (now : Int) (m : CacheMap V) (k : String) :
    Option V × CacheMap V :=
  match mapGet m k with
  | none => (none, m)
  | some e =>
      if now - e.ts > CACHE_TTL then (none, mapDelete m k)
      else (some e.value, mapSet (mapDelete m k) k e)

/-- `setToCache(key, value)` at wall-clock `now`: at capacity, the key at
the oldest insertion position is evicted first. -/
def setToCache {V : Type} (now : Int) (m : CacheMap V) (k : String) (v : V) :
    CacheMap V :=
  let m1 :=
    if CACHE_MAX ≤ m.length then
      match m with
      | [] => m
      | p :: _ => mapDelete m p.1
    else m
  mapSet m1 k ⟨now, v⟩

/-- `makeKey(cnpj, year, month)`: JS falsy arguments render as `''`. -/
def makeKey (cnpj year month : Option String) : String :=
  cnpj.getD "" ++ "|" ++ year.getD "" ++ "|" ++ month.getD ""

/-- A `/scrape` request body as the dispatcher reads it. -/
structure ScrapeRequest where
  cnpj : String
  year : Option String
  month : Option String
  noHeadless : Bool
  engine : String
deriving DecidableEq

/-- The cache key the handler builds for a request. -/
def requestKey (r : ScrapeRequest) : String :=
  makeKey (sanitizeCNPJ (some r.cnpj)) r.year r.month

/-- Observable outcome of the handler up to the cache decision: a 400 for an
invalid identifier, a cache hit, or a spawn of the selected engine script. -/
inductive ScrapeResponse (V : Type) where
  | badRequest : ScrapeResponse V
  | cachedHit : V → ScrapeResponse V
  | spawned : String → ScrapeResponse V
deriving DecidableEq

/-- `engine === 'playwright' ? SCRAPE_PLAYWRIGHT : SCRAPE_SCRIPT`. -/
def scriptFor (engine : String) : String :=
  if engine = "playwright" then "scrape_playwright.js" else "scrape.js"

/-- The `/scrape` handler's validate → key → cache-lookup prefix. -/
def handleScrape {V : Type} (now : Int) (m : CacheMap V) (r : ScrapeRequest) :
    ScrapeResponse V × CacheMap V :=
  match sanitizeCNPJ (some r.cnpj) with
  | none => (ScrapeResponse.badRequest, m)
  | some cnpjRaw =>
      if cnpjRaw.length < 11 then (ScrapeResponse.badRequest, m)
      else
        let key := makeKey (some cnpjRaw) r.year r.month
        match getFromCache now m key with
        | (some v, m2) => (ScrapeResponse.cachedHit v, m2)
        | (none, m2) => (ScrapeResponse.spawned (scriptFor r.engine), m2)

/-- The combined `debitos_all.json` payload of the puppeteer scraper. -/
structure Aggregate where
  cnpj : String
  companyName : Option String
  years : List (String × List DebitRecord)
deriving DecidableEq

/-- The late `findNameByLabel` pass over the persisted aggregate: when a
name was found and the file exists, it is read, only `companyName` is
assigned, and it is rewritten. -/
def lateNameUpdate : Option Aggregate → Option String → Option Aggregate
  | fsAll, none => fsAll
  | none, some _ => none
  | some agg, some nm => some { agg with companyName := some nm }

/-- The combined payload of `scrape_playwright.js` (extra year lists). -/
structure SpAggregate where
  cnpj : String
  companyName : Option String
  availableYears : List String
  notOptanteYears : List String
  allYears : List String
  years : List (String × List DebitRecord)
deriving DecidableEq

/-- The late `Nome:` list-item pass of `scrape_playwright.js`: assigns only
`companyName` on the in-memory result and rewrites the file from it. -/
def spLateNameUpdate (agg : SpAggregate) : Option String → SpAggregate
  | none => agg
  | some nm => { agg with companyName := some nm }

/-- A row whose tokens carry no comma-delimited fraction but a dot-delimited
one ("3.14"), inside a table whose only currency-shaped text sits in a later
row. -/
def cexRow1 : HtmlRow := ⟨[⟨CellTag.td, "2024"⟩, ⟨CellTag.td, "3.14"⟩]⟩

/-- The currency-bearing companion row of `cexTable1`. -/
def cexRow2 : HtmlRow := ⟨[⟨CellTag.td, "R$ 1,00"⟩]⟩

/-- Headerless table for the loose-scan counterexample. -/
def cexTable1 : HtmlTable := ⟨[cexRow1, cexRow2]⟩

/-- Headerless table with two currency-bearing rows, exposing the shared
regex state across the row scan. -/
def cexTable2 : HtmlTable :=
  ⟨[⟨[⟨CellTag.td, "R$ 1,00"⟩]⟩, ⟨[⟨CellTag.td, "R$ 2,00"⟩]⟩]⟩

/-- Operation that fails twice with a context-invalidation message, then
succeeds. -/
def retryDemoOk (n : Nat) : Except String (List DebitRecord) :=
  if n < 2 then Except.error "Execution context was destroyed"
  else Except.ok [looseRecord "56,00"]

/-- Operation that fails with a non-retryable message. -/
def retryDemoFatal (_ : Nat) : Except String (List DebitRecord) :=
  Except.error "TypeError: x is not a function"

/-- Operation that fails with a context-invalidation message on every
attempt. -/
def retryDemoExhaust (_ : Nat) : Except String (List DebitRecord) :=
  Except.error "Execution context was destroyed"

/-- Header row `Total | Data de Vencimento` for the mapping witness. -/
def hdrRow : HtmlRow := ⟨[⟨CellTag.th, "Total"⟩, ⟨CellTag.th, "Data de Vencimento"⟩]⟩

/-- Data row under `hdrRow`. -/
def datRow : HtmlRow := ⟨[⟨CellTag.td, "R$ 1,00"⟩, ⟨CellTag.td, "01/02/2024"⟩]⟩

/-- Header-mapped demo table. -/
def demoHeaderTable : HtmlTable := ⟨[hdrRow, datRow]⟩

/-- Distinguishable demo records for the persistence scenario. -/
def demoItem (n : Nat) : DebitRecord :=
  DebitRecord.loose ("linha " ++ toString n) [] none

/-- Three records for the non-empty demo year. -/
def demoItems3 : List DebitRecord := [demoItem 1, demoItem 2, demoItem 3]

/-- Two eligible years: one yields three rows, the other zero. -/
def demoOutcomes : List YearOutcome := [⟨"2023", demoItems3⟩, ⟨"2024", []⟩]

/-- 199 filler entries behind the oldest key of the full demo cache. -/
def demoRest : CacheMap Nat :=
  (List.range 199).map (fun i => ("a" ++ toString i, ⟨0, i⟩))

/-- A cache at capacity whose oldest insertion is `"k0"`. -/
def demoCache200 : CacheMap Nat := ("k0", ⟨0, 0⟩) :: demoRest

/-- Request naming the default engine, with a formatted identifier. -/
def demoReq1 : ScrapeRequest :=
  ⟨"12.345.678/0001-95", some "2024", some "1", false, "puppeteer"⟩

/-- Same identifier/year/month after normalization, other engine and
headless override. -/
def demoReq2 : ScrapeRequest :=
  ⟨"12345678000195", some "2024", some "1", true, "playwright"⟩

/-- Filtering to digits twice filters once. -/
theorem normalizeCNPJ_idem (s : String) : normalizeCNPJ (normalizeCNPJ s) = normalizeCNPJ s := by
  unfold normalizeCNPJ
  exact congrArg String.mk
    (List.filter_eq_self.mpr (fun a ha => (List.mem_filter.mp ha).2))

/-- Claim C2: with `maxAttempts = 3`, two context-invalidation failures
followed by a success return the successful result; a non-matching error
propagates immediately; exhausting all attempts on context-invalidation
errors returns the empty list. -/
theorem C2_retry_behavior :
    (∀ (op : Nat → Except String (List DebitRecord)) (e0 e1 : String)
       (r : List DebitRecord),
       op 0 = Except.error e0 → op 1 = Except.error e1 →
       isContextError e0 = true → isContextError e1 = true →
       op 2 = Except.ok r → safeExtractDebits op 3 = Except.ok r)
    ∧ (∀ (op : Nat → Except String (List DebitRecord)) (e : String),
       op 0 = Except.error e → isContextError e = false →
       safeExtractDebits op 3 = Except.error e)
    ∧ (∀ (op : Nat → Except String (List DebitRecord)) (e0 e1 e2 : String),
       op 0 = Except.error e0 → op 1 = Except.error e1 → op 2 = Except.error e2 →
       isContextError e0 = true → isContextError e1 = true → isContextError e2 = true →
       safeExtractDebits op 3 = Except.ok []) := by
  refine ⟨?_, ?_, ?_⟩
  · intro op e0 e1 r h0 h1 hc0 hc1 h2
    simp [safeExtractDebits, safeExtractGo, h0, h1, h2, hc0, hc1]
  · intro op e h0 hc
    simp [safeExtractDebits, safeExtractGo, h0, hc]
  · intro op e0 e1 e2 h0 h1 h2 hc0 hc1 hc2
    simp [safeExtractDebits, safeExtractGo, h0, h1, h2, hc0, hc1, hc2]

/-- Witness for C2 at three concrete operations. -/
theorem C2_retry_behavior_witness :
    safeExtractDebits retryDemoOk 3 = Except.ok [looseRecord "56,00"]
    ∧ safeExtractDebits retryDemoFatal 3 = Except.error "TypeError: x is not a function"
    ∧ safeExtractDebits retryDemoExhaust 3 = Except.ok [] :=
  ⟨C2_retry_behavior.1 retryDemoOk _ _ _ rfl rfl (by decide) (by decide) rfl,
   C2_retry_behavior.2.1 retryDemoFatal _ rfl (by decide),
   C2_retry_behavior.2.2 retryDemoExhaust _ _ _ rfl rfl rfl
     (by decide) (by decide) (by decide)⟩

/-- Claim C4: the container filter of `extractDebits` is not a pure
predicate of the container's own text — the shared regex's `lastIndex`
survives the first test, so a second container whose flattened text does
contain a currency-shaped substring (and not the year) is rejected. -/
theorem C4_container_filter_state :
    acceptedContainers "2024" ["R$ 10,00", "R$ 10,00"] = [true, false]
    ∧ (currencyTest "R$ 10,00" 0).1 = true
    ∧ strContains "R$ 10,00" "2024" = false := by decide

/-- Claim C9: the late display-name pass rewrites only the `companyName`
field of the persisted aggregate — identifier and years sequence are
unchanged, the late name replaces any earlier inline-list guess, and with no
late name the file is untouched; likewise for the playwright payload with
its extra year-list fields. -/
theorem C9_late_name_overwrite :
    (∀ (agg : Aggregate) (nm : String),
        lateNameUpdate (some agg) (some nm) = some ⟨agg.cnpj, some nm, agg.years⟩)
    ∧ (∀ fsAll : Option Aggregate, lateNameUpdate fsAll none = fsAll)
    ∧ (∀ (agg : SpAggregate) (nm : String),
        spLateNameUpdate agg (some nm)
          = ⟨agg.cnpj, some nm, agg.availableYears, agg.notOptanteYears,
             agg.allYears, agg.years⟩) := by
  refine ⟨fun agg nm => rfl, fun fsAll => ?_, fun agg nm => rfl⟩
  cases fsAll <;> rfl

/-- Claim C8, counterexample: `sanitizeCNPJ` is not idempotent — a nonempty
digit-free input maps to `""`, which maps further to `null`. -/
theorem C8_counterexample :
    sanitizeCNPJ (sanitizeCNPJ (some "abc")) ≠ sanitizeCNPJ (some "abc") := by decide

/-- Claim C8 (amended): `normalizeCNPJ` returns exactly the digit characters
in their original order and is idempotent; `sanitizeCNPJ` returns `null` on
empty input, otherwise the digits, and composes idempotently except on
nonempty digit-free input. -/
theorem C8_normalize_amended :
    (∀ s : String, ((normalizeCNPJ s).toList.all Char.isDigit) = true)
    ∧ (∀ s : String, (normalizeCNPJ s).toList.Sublist s.toList)
    ∧ (∀ (s : String) (c : Char), c.isDigit = true →
        (normalizeCNPJ s).toList.count c = s.toList.count c)
    ∧ (∀ s : String, normalizeCNPJ (normalizeCNPJ s) = normalizeCNPJ s)
    ∧ (∀ s : String, s ≠ "" → sanitizeCNPJ (some s) = some (normalizeCNPJ s))
    ∧ (∀ x : Option String,
        (∀ s, x = some s → s ≠ "" → normalizeCNPJ s ≠ "") →
        sanitizeCNPJ (sanitizeCNPJ x) = sanitizeCNPJ x) := by
  refine ⟨?_, ?_, ?_, normalizeCNPJ_idem, ?_, ?_⟩
  · intro s
    exact List.all_eq_true.mpr (fun c hc => (List.mem_filter.mp hc).2)
  · intro s
    exact List.filter_sublist _
  · intro s c hc
    simpa [normalizeCNPJ] using List.count_filter (l := s.toList) hc
  · intro s hs
    simp [sanitizeCNPJ, hs]
  · intro x hx
    cases x with
    | none => rfl
    | some s =>
        by_cases hs : s = ""
        · subst hs; rfl
        · have hnz : normalizeCNPJ s ≠ "" := hx s rfl hs
          simp [sanitizeCNPJ, hs, hnz, normalizeCNPJ_idem]

/-- Witness for C8 at a concrete formatted identifier. -/
theorem C8_normalize_amended_witness :
    sanitizeCNPJ (sanitizeCNPJ (some "12.345.678/0001-95"))
      = sanitizeCNPJ (some "12.345.678/0001-95")
    ∧ (normalizeCNPJ "12.345.678/0001-95").toList.count '1'
      = "12.345.678/0001-95".toList.count '1' :=
  ⟨C8_normalize_amended.2.2.2.2.2 (some "12.345.678/0001-95")
      (by intro s hs hne; cases hs; decide),
   C8_normalize_amended.2.2.1 "12.345.678/0001-95" '1' (by decide)⟩

/-- A token match starts with a digit character. -/
theorem tokenMatchAt_head_digit {l : List Char} (h : tokenMatchAt l = true) :
    ∃ c cs, l = c :: cs ∧ c.isDigit = true := by
  cases l with
  | nil => simp [tokenMatchAt] at h
  | cons c cs =>
      refine ⟨c, cs, rfl, ?_⟩
      cases hc : c.isDigit with
      | true => rfl
      | false => simp [tokenMatchAt, List.takeWhile_cons, hc] at h

/-- Digits are not stripped by the amount cleanup. -/
theorem stripChar_of_digit {c : Char} (hc : c.isDigit = true) : stripChar c = false := by
  cases hsc : stripChar c with
  | false => rfl
  | true =>
      exfalso
      have hmem : c ∈ ['R', '$', ' ', '\t', '\n', '\r', '.'] := by
        simp only [stripChar, isJsSpace, Bool.or_eq_true, decide_eq_true_eq] at hsc
        simp only [List.mem_cons, List.not_mem_nil, or_false]
        tauto
      fin_cases hmem <;> exact absurd hc (by decide)

/-- `replaceFirstComma` preserves length. -/
theorem length_replaceFirstComma (l : List Char) :
    (replaceFirstComma l).length = l.length := by
  induction l with
  | nil => rfl
  | cons c rest ih => by_cases h : c = ',' <;> simp [replaceFirstComma, h, ih]

/-- A token that matches `\d+[\.,]\d{2}` cleans to a non-empty string (its
digits survive the strip). -/
theorem cleanAmount_ne_empty {p : String} (h : tokenHasAmount p = true) :
    cleanAmount p ≠ "" := by
  obtain ⟨t, ht, hmatch⟩ := List.any_eq_true.mp h
  obtain ⟨c, cs, rfl, hc⟩ := tokenMatchAt_head_digit hmatch
  have hsfx : (c :: cs) <:+ p.toList := (List.mem_tails _ _).mp ht
  have hmem : c ∈ p.toList := hsfx.subset (List.mem_cons_self _ _)
  have hkeep : c ∈ p.toList.filter (fun d => !stripChar d) :=
    List.mem_filter.mpr ⟨hmem, by simp [stripChar_of_digit hc]⟩
  intro heq
  have hdata : replaceFirstComma (p.toList.filter (fun d => !stripChar d)) = [] :=
    congrArg String.toList heq
  have hlen := congrArg List.length hdata
  rw [length_replaceFirstComma] at hlen
  exact absurd (List.length_eq_zero.mp hlen) (List.ne_nil_of_mem hkeep)

/-- The amount of a loose record is the cleaned `Number(...)` of the last
whitespace-run-split token matching `\d+[\.,]\d{2}`, when one exists. -/
theorem amountOf_looseRecord (s : String) :
    amountOf (looseRecord s)
      = ((splitParts s).reverse.find? tokenHasAmount).map
          (fun p => jsNumber (cleanAmount p)) := by
  unfold looseRecord amountOf
  cases hf : (splitParts s).reverse.find? tokenHasAmount with
  | none => simp [hf]
  | some p =>
      have hp : tokenHasAmount p = true := List.find?_some hf
      simp [hf, cleanAmount_ne_empty hp]

/-- Claim C1, counterexample: a row whose tokens have no comma-delimited
two-digit fractional part but a dot-delimited one yields the amount `314`,
not `null`; and a currency-bearing row can be dropped entirely because the
shared regex state survives the table-level test. -/
theorem C1_counterexample :
    (hasCommaFrac "2024" = false ∧ hasCommaFrac "3.14" = false)
    ∧ extractDebits "2024" [cexTable1]
        = [DebitRecord.loose "2024\t3.14" ["2024", "3.14"] (some (JsNum.val 314 1))]
    ∧ ((currencyTest "R$ 1,00" 0).1 = true
        ∧ extractDebits "2024" [cexTable2]
            = [DebitRecord.loose "R$ 2,00" ["R$ 2,00"] (some (JsNum.val 200 100))]) := by
  decide

/-- Claim C1 (amended): in the loose row scan, `"R$ 1.234,56"` parses to
`1234.56` and `"56,00"` to `56.00`; the amount is the cleaned number of the
last token matching a digit run followed by a dot or comma and two digits
(dot-delimited fractions are accepted too); a row with no such token gets a
null amount; and a row whose text contains the year is always emitted. -/
theorem C1_loose_scan_amended :
    (amountOf (looseRecord "R$ 1.234,56") = some (JsNum.val 123456 100)
      ∧ jsNumAsRat (JsNum.val 123456 100) = some (1234.56 : ℚ))
    ∧ (amountOf (looseRecord "56,00") = some (JsNum.val 5600 100)
      ∧ jsNumAsRat (JsNum.val 5600 100) = some (56 : ℚ))
    ∧ (∀ s : String, amountOf (looseRecord s)
        = ((splitParts s).reverse.find? tokenHasAmount).map
            (fun p => jsNumber (cleanAmount p)))
    ∧ (∀ s : String, ((splitParts s).all (fun p => !tokenHasAmount p)) = true →
        amountOf (looseRecord s) = none)
    ∧ (∀ (year : String) (rows : List HtmlRow) (li : Nat) (r : HtmlRow),
        r ∈ rows → jsTrim (rowInnerText r) ≠ "" →
        strContains (jsTrim (rowInnerText r)) year = true →
        looseRecord (jsTrim (rowInnerText r)) ∈ (looseRows year rows li).1) := by
  refine ⟨⟨by decide, ?_⟩, ⟨by decide, ?_⟩, amountOf_looseRecord, ?_, ?_⟩
  · simp [jsNumAsRat]; norm_num
  · simp [jsNumAsRat]; norm_num
  · intro s hall
    rw [amountOf_looseRecord]
    have : (splitParts s).reverse.find? tokenHasAmount = none := by
      rw [List.find?_eq_none]
      intro p hp
      have := List.all_eq_true.mp hall p (List.mem_reverse.mp hp)
      simpa using this
    simp [this]
  · intro year rows
    induction rows with
    | nil => intro li r hr; simp at hr
    | cons r0 rest ih =>
        intro li r hr htrim hyear
        rcases List.mem_cons.mp hr with rfl | hmem
        · simp only [looseRows]
          rw [if_neg htrim, if_pos hyear]
          exact List.mem_cons_self _ _
        · by_cases h0 : jsTrim (rowInnerText r0) = ""
          · simp only [looseRows]
            rw [if_pos h0]
            exact ih li r hmem htrim hyear
          · by_cases hy : strContains (jsTrim (rowInnerText r0)) year = true
            · simp only [looseRows]
              rw [if_neg h0, if_pos hy]
              exact List.mem_cons_of_mem _ (ih li r hmem htrim hyear)
            · simp only [looseRows]
              rw [if_neg h0, if_neg hy]
              cases htr : (currencyTest (jsTrim (rowInnerText r0)) li).1 with
              | true =>
                  rw [if_pos rfl]
                  exact List.mem_cons_of_mem _
                    (ih (currencyTest (jsTrim (rowInnerText r0)) li).2 r hmem htrim hyear)
              | false =>
                  rw [if_neg (by simp)]
                  exact ih (currencyTest (jsTrim (rowInnerText r0)) li).2 r hmem htrim hyear

/-- Witness for C1's quantified conjuncts at concrete rows. -/
theorem C1_loose_scan_amended_witness :
    amountOf (looseRecord "sem valor aqui") = none
    ∧ looseRecord "2024" ∈ (looseRows "2024" [⟨[⟨CellTag.td, "2024"⟩]⟩] 5).1 :=
  ⟨C1_loose_scan_amended.2.2.2.1 "sem valor aqui" (by decide),
   C1_loose_scan_amended.2.2.2.2 "2024" [⟨[⟨CellTag.td, "2024"⟩]⟩] 5
     ⟨[⟨CellTag.td, "2024"⟩]⟩ (List.mem_singleton.mpr rfl) (by decide) (by decide)⟩

/-- `expectedHeaders[indexOf(h)]` recovers `h` whenever the index exists. -/
theorem indexIn_getD_eq :
    ∀ (l : List String) (h : String) (i : Nat),
      indexIn l h = some i → l.getD i h = h := by
  intro l
  induction l with
  | nil => intro h i hx; simp [indexIn] at hx
  | cons a rest ih =>
      intro h i hx
      by_cases ha : a = h
      · simp only [indexIn, if_pos ha] at hx
        cases hx
        simpa using ha
      · simp only [indexIn, if_neg ha, Option.map_eq_some'] at hx
        obtain ⟨j, hj, rfl⟩ := hx
        simpa [List.getD_cons_succ] using ih h j hj

/-- `idx >= 0 ? expectedHeaders[idx] : h` is the identity on header keys. -/
theorem mapKeyFor_eq_self (h : String) : mapKeyFor h = h := by
  unfold mapKeyFor
  cases hx : indexIn expectedHeaders h with
  | none => rfl
  | some i => exact indexIn_getD_eq _ h i hx

/-- The `k`-th assignment of a header-mapped row pairs the `k`-th header
(`col_k` when empty) with the trimmed `k`-th cell. -/
theorem recFieldAt_mappedRow (hs : List String) (r : HtmlRow) (k : Nat) (h : String)
    (hk : hs[k]? = some h) :
    recFieldAt (mappedRow (mapKeysOf hs) r) k
      = some ((if h = "" then "col_" ++ toString k else h), cellValOpt r k) := by
  have hklt : k < hs.length := by
    by_contra hge
    push_neg at hge
    rw [List.getElem?_eq_none hge] at hk
    exact Option.noConfusion hk
  simp only [mappedRow, recFieldAt]
  rw [List.getElem?_map, List.getElem?_range (by simpa [mapKeysOf] using hklt)]
  simp [mapKeysOf, List.getD_eq_getElem?_getD, List.getElem?_map, hk, mapKeyFor_eq_self]

/-- Every record the loose row scan emits has the fallback shape. -/
theorem looseRows_all_loose (year : String) :
    ∀ (rows : List HtmlRow) (li : Nat) (rec : DebitRecord),
      rec ∈ (looseRows year rows li).1 → isLooseShape rec = true := by
  intro rows
  induction rows with
  | nil => intro li rec hrec; simp [looseRows] at hrec
  | cons r0 rest ih =>
      intro li rec hrec
      simp only [looseRows] at hrec
      by_cases h0 : jsTrim (rowInnerText r0) = ""
      · rw [if_pos h0] at hrec
        exact ih li rec hrec
      · rw [if_neg h0] at hrec
        by_cases hy : strContains (jsTrim (rowInnerText r0)) year = true
        · rw [if_pos hy] at hrec
          rcases List.mem_cons.mp hrec with rfl | hmem
          · rfl
          · exact ih li rec hmem
        · rw [if_neg hy] at hrec
          cases htr : (currencyTest (jsTrim (rowInnerText r0)) li).1 with
          | true =>
              rw [htr, if_pos rfl] at hrec
              rcases List.mem_cons.mp hrec with rfl | hmem
              · rfl
              · exact ih _ rec hmem
          | false =>
              rw [htr, if_neg (by simp)] at hrec
              exact ih _ rec hrec

/-- Claim C3: a table whose headers include `total` and
`data de vencimento` (normalized) is header-mapped — every subsequent row is
zipped against the header order, the canonical keys carrying the
corresponding cells and other columns kept under their own header text or a
synthetic `col_k`; a table none of whose header cells is in the canonical
vocabulary only emits fallback-shaped records. -/
theorem C3_header_mapping :
    (∀ (year : String) (t : HtmlTable) (li : Nat),
        (currencyTest (tableInnerText t) li).1 = true →
        "total" ∈ headersOf t → "data de vencimento" ∈ headersOf t →
        (processTable year t li).1
          = (t.rows.drop 1).map (mappedRow (mapKeysOf (headersOf t))))
    ∧ (∀ (hs : List String) (r : HtmlRow) (k : Nat) (h : String),
        hs[k]? = some h →
        recFieldAt (mappedRow (mapKeysOf hs) r) k
          = some ((if h = "" then "col_" ++ toString k else h), cellValOpt r k))
    ∧ (∀ r : HtmlRow,
        mappedRow (mapKeysOf ["total", "data de vencimento"]) r
          = DebitRecord.mapped
              [("total", cellValOpt r 0), ("data de vencimento", cellValOpt r 1)])
    ∧ (∀ (year : String) (t : HtmlTable) (li : Nat),
        ((headersOf t).all (fun h => !decide (h ∈ expectedHeaders))) = true →
        ∀ rec ∈ (processTable year t li).1, isLooseShape rec = true) := by
  refine ⟨?_, recFieldAt_mappedRow, fun r => rfl, ?_⟩
  · intro year t li hcur htot hdat
    have hany : (headersOf t).any (fun h => decide (h ∈ expectedHeaders)) = true :=
      List.any_eq_true.mpr ⟨"total", htot, by decide⟩
    have hne : (headersOf t).isEmpty = false := by
      cases hh : headersOf t with
      | nil => rw [hh] at htot; simp at htot
      | cons a l => rfl
    simp only [processTable, hcur, if_true, hany, hne, Bool.not_false, Bool.and_self,
      if_pos rfl]
  · intro year t li hall rec hrec
    simp only [processTable] at hrec
    cases hcur : (currencyTest (tableInnerText t) li).1 with
    | false =>
        rw [hcur, if_neg (by simp)] at hrec
        simp at hrec
    | true =>
        rw [hcur, if_pos rfl] at hrec
        have hanyf : (headersOf t).any (fun h => decide (h ∈ expectedHeaders)) = false := by
          rw [List.any_eq_false]
          intro x hx
          have := List.all_eq_true.mp hall x hx
          simpa using this
        rw [hanyf] at hrec
        simp only [Bool.false_and, Bool.false_eq_true, if_false] at hrec
        exact looseRows_all_loose year t.rows _ rec hrec

/-- Witness for C3 at a concrete `Total | Data de Vencimento` table. -/
theorem C3_header_mapping_witness :
    (currencyTest (tableInnerText demoHeaderTable) 0).1 = true
    ∧ (processTable "2024" demoHeaderTable 0).1
        = (demoHeaderTable.rows.drop 1).map
            (mappedRow (mapKeysOf (headersOf demoHeaderTable)))
    ∧ recFieldAt (mappedRow (mapKeysOf (headersOf demoHeaderTable)) datRow) 0
        = some ("total", cellValOpt datRow 0)
    ∧ recFieldAt (mappedRow (mapKeysOf (headersOf demoHeaderTable)) datRow) 1
        = some ("data de vencimento", cellValOpt datRow 1) :=
  ⟨by decide,
   C3_header_mapping.1 "2024" demoHeaderTable 0 (by decide) (by decide) (by decide),
   C3_header_mapping.2.1 (headersOf demoHeaderTable) datRow 0 "total" (by decide),
   C3_header_mapping.2.1 (headersOf demoHeaderTable) datRow 1 "data de vencimento"
     (by decide)⟩

/-- Claim C5, counterexample: in `scrape_playwright.js`'s native-select
branch, a non-disabled option labeled `"2022 - não optante"` with value
`"2022"` is included in the `available` set — the label is never tested. -/
theorem C5_counterexample :
    spAvailableFromSelect [⟨"2022", "2022 - não optante", false, false⟩]
        = [⟨"2022", "2022 - não optante", false, false⟩]
    ∧ naoOptante "2022 - não optante" = true := by decide

/-- Claim C5 (amended): the `server.js`/puppeteer `getAvailableYears`
excludes "não optante"-labeled and disabled options and keeps an enabled
`"2023"`, in both the select and the element-scan branch; in
`scrape_playwright.js`'s select branch only the disabled signal (or a
non-four-digit value) excludes an option — the label alone does not. -/
theorem C5_year_filter_amended :
    (∀ (opts : List SelectOption) (o : SelectOption),
        o ∈ srvYearsFromSelect opts → naoOptante o.text = false ∧ optDisabled o = false)
    ∧ (∀ (opts : List SelectOption) (o : SelectOption),
        o ∈ opts → o.text = "2023" → optDisabled o = false →
        o ∈ srvYearsFromSelect opts)
    ∧ (∀ (els : List ScanElem) (e : ScanElem),
        e ∈ srvYearsFromScan els → naoOptante e.text = false ∧ scanDisabled e = false)
    ∧ (∀ (els : List ScanElem) (e : ScanElem),
        e ∈ els → e.text = "2023" → scanDisabled e = false →
        e ∈ srvYearsFromScan els)
    ∧ (∀ (opts : List SelectOption) (o : SelectOption),
        o ∈ opts → o.text ≠ "" → optDisabled o = false → isFourDigits o.value = true →
        o ∈ spAvailableFromSelect opts) := by
  refine ⟨?_, ?_, ?_, ?_, ?_⟩
  · intro opts o ho
    have := (List.mem_filter.mp ho).2
    simp only [Bool.and_eq_true, Bool.not_eq_true'] at this
    exact ⟨this.1.2, this.2⟩
  · intro opts o ho htext hdis
    refine List.mem_filter.mpr ⟨ho, ?_⟩
    rw [htext, hdis]
    decide
  · intro els e he
    have := (List.mem_filter.mp he).2
    simp only [Bool.and_eq_true, Bool.not_eq_true'] at this
    exact ⟨this.1.2, this.2⟩
  · intro els e he htext hdis
    refine List.mem_filter.mpr ⟨he, ?_⟩
    rw [htext, hdis]
    decide
  · intro opts o ho htext hdis hval
    refine List.mem_filter.mpr ⟨ho, ?_⟩
    have hvne : o.value ≠ "" := by
      intro hv
      rw [hv] at hval
      exact absurd hval (by decide)
    have ht : (o.text != "") = true := by
      simpa using htext
    have hv : (o.value != "") = true := by
      simpa using hvne
    rw [hdis, ht, hv]
    simpa using hval

/-- Witness for C5 at concrete option and element lists. -/
theorem C5_year_filter_amended_witness :
    ((⟨"2023", "2023", false, false⟩ : SelectOption)
        ∈ srvYearsFromSelect
            [⟨"2022", "2022 - não optante", false, false⟩, ⟨"2023", "2023", false, false⟩])
    ∧ ((⟨"2023", some "false", none, some "year-item"⟩ : ScanElem)
        ∈ srvYearsFromScan
            [⟨"2023", some "false", none, some "year-item"⟩, ⟨"2022", none, some "", none⟩])
    ∧ ((⟨"2022", "2022 - não optante", false, false⟩ : SelectOption)
        ∈ spAvailableFromSelect [⟨"2022", "2022 - não optante", false, false⟩]) :=
  ⟨C5_year_filter_amended.2.1 _ _ (by decide) rfl (by decide),
   C5_year_filter_amended.2.2.2.1 _ _ (by decide) rfl (by decide),
   C5_year_filter_amended.2.2.2.2 _ _ (by decide) (by decide) (by decide) (by decide)⟩

/-- Closed form of the playwright sequential loop: per-year writes for
exactly the non-empty years, and one `all` pair per processed year. -/
theorem spFold_closed (cnpj : String) :
    ∀ (outcomes : List YearOutcome) (evs : List FileEvent)
      (all : List (String × List DebitRecord)),
      outcomes.foldl (spStep cnpj) (evs, all)
        = (evs ++ (outcomes.filter (fun o => !o.items.isEmpty)).map
              (fun o => FileEvent.perYear o.yearLabel cnpj o.items),
           all ++ outcomes.map (fun o => (o.yearLabel, o.items))) := by
  intro outcomes
  induction outcomes with
  | nil => intro evs all; simp
  | cons o rest ih =>
      intro evs all
      rw [List.foldl_cons, ih]
      cases hempty : o.items.isEmpty with
      | true => simp [spStep, hempty]
      | false => simp [spStep, hempty]

/-- Closed form of the puppeteer loop: empty years contribute neither a
write nor an `all` pair. -/
theorem ppFold_closed (cnpj : String) :
    ∀ (outcomes : List YearOutcome) (evs : List FileEvent)
      (all : List (String × List DebitRecord)),
      outcomes.foldl (ppStep cnpj) (evs, all)
        = (evs ++ (outcomes.filter (fun o => !o.items.isEmpty)).map
              (fun o => FileEvent.perYear o.yearLabel cnpj o.items),
           all ++ (outcomes.filter (fun o => !o.items.isEmpty)).map
              (fun o => (o.yearLabel, o.items))) := by
  intro outcomes
  induction outcomes with
  | nil => intro evs all; simp
  | cons o rest ih =>
      intro evs all
      rw [List.foldl_cons]
      cases hempty : o.items.isEmpty with
      | true => rw [show ppStep cnpj (evs, all) o = (evs, all) by
                      simp [ppStep, hempty], ih]
                simp [hempty]
      | false => rw [show ppStep cnpj (evs, all) o
                        = (evs ++ [FileEvent.perYear o.yearLabel cnpj o.items],
                           all ++ [(o.yearLabel, o.items)]) by
                      simp [ppStep, hempty], ih]
                 simp [hempty]

/-- Claim C6, counterexample: with two eligible years yielding 3 and 0
records, the playwright run writes no per-year file for the empty year (its
combined output still has both entries), and the puppeteer run's combined
output has only one entry. -/
theorem C6_counterexample :
    spRun "123" demoOutcomes
      = [FileEvent.perYear "2023" "123" demoItems3,
         FileEvent.combined "123" [("2023", demoItems3), ("2024", [])]]
    ∧ FileEvent.perYear "2024" "123" [] ∉ spRun "123" demoOutcomes
    ∧ ppRun "123" demoOutcomes
      = [FileEvent.perYear "2023" "123" demoItems3,
         FileEvent.combined "123" [("2023", demoItems3)]] := by decide

/-- Claim C6 (amended): the playwright sequential strategy puts one
YearResult per eligible year into the combined payload (the puppeteer
strategy keeps only the non-empty years there); a per-year file is written
exactly for the years with at least one record, all such writes preceding
the single combined write. -/
theorem C6_persistence_amended :
    ∀ (cnpj : String) (outcomes : List YearOutcome),
      spRun cnpj outcomes
        = (outcomes.filter (fun o => !o.items.isEmpty)).map
            (fun o => FileEvent.perYear o.yearLabel cnpj o.items)
          ++ [FileEvent.combined cnpj (outcomes.map (fun o => (o.yearLabel, o.items)))]
      ∧ ppRun cnpj outcomes
        = (outcomes.filter (fun o => !o.items.isEmpty)).map
            (fun o => FileEvent.perYear o.yearLabel cnpj o.items)
          ++ [FileEvent.combined cnpj
                ((outcomes.filter (fun o => !o.items.isEmpty)).map
                  (fun o => (o.yearLabel, o.items)))] := by
  intro cnpj outcomes
  constructor
  · unfold spRun
    rw [spFold_closed]
    simp
  · unfold ppRun
    rw [ppFold_closed]
    simp

/-- Deleting a key removes every entry `find?` could return for it. -/
theorem find?_mapDelete_self {V : Type} (m : CacheMap V) (k : String) :
    (mapDelete m k).find? (fun p => p.1 == k) = none := by
  unfold mapDelete
  induction m with
  | nil => rfl
  | cons p rest ih =>
      rw [List.filter_cons]
      by_cases hp : p.1 = k
      · rw [if_neg (by simp [hp])]
        exact ih
      · rw [if_pos (by simp [hp]), List.find?_cons_of_neg _ (by simp [hp])]
        exact ih

/-- `find?` after appending a fresh single entry, key not looked up. -/
theorem find?_append_single_ne {V : Type} (m : CacheMap V) (k k' : String)
    (e : CacheEntry V) (hne : (k == k') = false) :
    (m ++ [(k, e)]).find? (fun p => p.1 == k')
      = m.find? (fun p => p.1 == k') := by
  induction m with
  | nil => simp [List.find?, hne]
  | cons p rest ih =>
      by_cases hp : p.1 = k'
      · rw [List.cons_append, List.find?_cons_of_pos _ (by simp [hp]),
            List.find?_cons_of_pos _ (by simp [hp])]
      · rw [List.cons_append, List.find?_cons_of_neg _ (by simp [hp]),
            List.find?_cons_of_neg _ (by simp [hp])]
        exact ih

/-- In-place update of key `k` is invisible to a lookup of `k' ≠ k`. -/
theorem find?_mapUpdate_ne {V : Type} (m : CacheMap V) (k k' : String)
    (e : CacheEntry V) (hne : k' ≠ k) :
    (m.map (fun p => if p.1 == k then (k, e) else p)).find? (fun p => p.1 == k')
      = m.find? (fun p => p.1 == k') := by
  induction m with
  | nil => rfl
  | cons p rest ih =>
      rw [List.map_cons]
      by_cases hp : p.1 = k
      · rw [if_pos (by simp [hp])]
        rw [List.find?_cons_of_neg _ (by simp [Ne.symm hne]),
            List.find?_cons_of_neg _ (by simp [hp, Ne.symm hne])]
        exact ih
      · rw [if_neg (by simp [hp])]
        by_cases hp' : p.1 = k'
        · rw [List.find?_cons_of_pos _ (by simp [hp']),
              List.find?_cons_of_pos _ (by simp [hp'])]
        · rw [List.find?_cons_of_neg _ (by simp [hp']),
              List.find?_cons_of_neg _ (by simp [hp'])]
          exact ih

/-- The updated slot of an occupied key is found exactly once. -/
theorem find?_mapUpdate_self {V : Type} (m : CacheMap V) (k : String)
    (e : CacheEntry V)
    (hf : (m.find? (fun p => p.1 == k)).isSome = true) :
    (m.map (fun p => if p.1 == k then (k, e) else p)).find? (fun p => p.1 == k)
      = some (k, e) := by
  induction m with
  | nil => simp [List.find?] at hf
  | cons p rest ih =>
      rw [List.map_cons]
      by_cases hp : p.1 = k
      · rw [if_pos (by simp [hp])]
        rw [List.find?_cons_of_pos _ (by simp)]
      · rw [if_neg (by simp [hp])]
        rw [List.find?_cons_of_neg _ (by simp [hp])]
        refine ih ?_
        rw [List.find?_cons_of_neg _ (by simp [hp])] at hf
        exact hf

/-- Appending a fresh entry for an absent key makes `find?` return it. -/
theorem find?_append_single_self {V : Type} (m : CacheMap V) (k : String)
    (e : CacheEntry V) (hnone : m.find? (fun p => p.1 == k) = none) :
    (m ++ [(k, e)]).find? (fun p => p.1 == k) = some (k, e) := by
  induction m with
  | nil => simp [List.find?]
  | cons p rest ih =>
      by_cases hp : p.1 = k
      · rw [List.find?_cons_of_pos _ (by simp [hp])] at hnone
        exact Option.noConfusion hnone
      · rw [List.find?_cons_of_neg _ (by simp [hp])] at hnone
        rw [List.cons_append, List.find?_cons_of_neg _ (by simp [hp])]
        exact ih hnone

/-- After `mapSet`, the key maps to exactly the inserted entry. -/
theorem mapGet_mapSet_self {V : Type} (m : CacheMap V) (k : String) (e : CacheEntry V) :
    mapGet (mapSet m k e) k = some e := by
  unfold mapGet mapSet
  cases hf : (m.find? (fun p => p.1 == k)).isSome with
  | false =>
      rw [if_neg (by simp [hf])]
      have hnone : m.find? (fun p => p.1 == k) = none := by
        cases hx : m.find? (fun p => p.1 == k) with
        | none => rfl
        | some q => rw [hx] at hf; simp at hf
      rw [find?_append_single_self m k e hnone]
      rfl
  | true =>
      rw [if_pos (by simp [hf])]
      rw [find?_mapUpdate_self m k e hf]
      rfl

/-- `mapSet` of one key does not disturb lookups of another. -/
theorem mapGet_mapSet_ne {V : Type} (m : CacheMap V) (k k' : String) (e : CacheEntry V)
    (hne : k' ≠ k) : mapGet (mapSet m k e) k' = mapGet m k' := by
  unfold mapGet mapSet
  cases hf : (m.find? (fun p => p.1 == k)).isSome with
  | false =>
      rw [if_neg (by simp [hf])]
      rw [find?_append_single_ne m k k' e (by simp [Ne.symm hne])]
  | true =>
      rw [if_pos (by simp [hf])]
      rw [find?_mapUpdate_ne m k k' e hne]

/-- Claim C7: `getFromCache` misses on absent keys; deletes and misses on an
entry older than the TTL; on a fresh hit re-inserts the very same entry
(timestamp untouched) at the newest insertion position; and `setToCache` at
capacity evicts the key at the oldest insertion position while the new entry
is stored under its key. -/
theorem C7_cache_lifecycle :
    (∀ (V : Type) (now : Int) (m : CacheMap V) (k : String),
        mapGet m k = none → getFromCache now m k = (none, m))
    ∧ (∀ (V : Type) (now : Int) (m : CacheMap V) (k : String) (e : CacheEntry V),
        mapGet m k = some e → now - e.ts > CACHE_TTL →
        getFromCache now m k = (none, mapDelete m k))
    ∧ (∀ (V : Type) (now : Int) (m : CacheMap V) (k : String) (e : CacheEntry V),
        mapGet m k = some e → now - e.ts ≤ CACHE_TTL →
        getFromCache now m k = (some e.value, mapDelete m k ++ [(k, e)]))
    ∧ (∀ (V : Type) (now : Int) (m : CacheMap V) (k : String) (v : V)
         (k0 : String) (e0 : CacheEntry V) (rest : CacheMap V),
        m = (k0, e0) :: rest → CACHE_MAX ≤ m.length → k ≠ k0 →
        mapGet (setToCache now m k v) k0 = none)
    ∧ (∀ (V : Type) (now : Int) (m : CacheMap V) (k : String) (v : V),
        mapGet (setToCache now m k v) k = some ⟨now, v⟩) := by
  refine ⟨?_, ?_, ?_, ?_, ?_⟩
  · intro V now m k hget
    simp [getFromCache, hget]
  · intro V now m k e hget hstale
    simp [getFromCache, hget, hstale]
  · intro V now m k e hget hfresh
    have hset : mapSet (mapDelete m k) k e = mapDelete m k ++ [(k, e)] := by
      unfold mapSet
      rw [if_neg (by simp [find?_mapDelete_self])]
    simp [getFromCache, hget, hset, not_lt.mpr hfresh]
  · intro V now m k v k0 e0 rest hm hlen hne
    subst hm
    simp only [setToCache, if_pos hlen]
    rw [mapGet_mapSet_ne _ k k0 _ (fun h => hne h.symm)]
    unfold mapGet
    rw [find?_mapDelete_self]
    rfl
  · intro V now m k v
    simp only [setToCache]
    exact mapGet_mapSet_self _ k ⟨now, v⟩

/-- Witness for C7 at concrete caches, including one at capacity. -/
theorem C7_cache_lifecycle_witness :
    getFromCache 5 ([("a", ⟨0, 1⟩)] : CacheMap Nat) "b" = (none, [("a", ⟨0, 1⟩)])
    ∧ getFromCache 700001 ([("a", ⟨0, 7⟩)] : CacheMap Nat) "a"
        = (none, mapDelete [("a", ⟨0, 7⟩)] "a")
    ∧ getFromCache 1000 ([("a", ⟨0, 7⟩), ("b", ⟨5, 8⟩)] : CacheMap Nat) "a"
        = (some 7, mapDelete [("a", ⟨0, 7⟩), ("b", ⟨5, 8⟩)] "a" ++ [("a", ⟨0, 7⟩)])
    ∧ mapGet (setToCache 9 demoCache200 "novo" 42) "k0" = none
    ∧ mapGet (setToCache 9 demoCache200 "novo" 42) "novo" = some ⟨9, 42⟩ :=
  ⟨C7_cache_lifecycle.1 Nat 5 _ "b" rfl,
   C7_cache_lifecycle.2.1 Nat 700001 _ "a" ⟨0, 7⟩ rfl (by decide),
   C7_cache_lifecycle.2.2.1 Nat 1000 _ "a" ⟨0, 7⟩ rfl (by decide),
   C7_cache_lifecycle.2.2.2.1 Nat 9 demoCache200 "novo" 42 "k0" ⟨0, 0⟩ demoRest rfl
     (by simp [demoCache200, demoRest, CACHE_MAX]) (by decide),
   C7_cache_lifecycle.2.2.2.2 Nat 9 demoCache200 "novo" 42⟩

/-- Claim C10: the cache key depends only on the normalized identifier, the
year and the month — two requests differing only in engine selector or
headless flag share the key, and a value cached by one run is served, within
the TTL, to a request naming the other engine. -/
theorem C10_key_ignores_engine :
    (∀ r1 r2 : ScrapeRequest,
        sanitizeCNPJ (some r1.cnpj) = sanitizeCNPJ (some r2.cnpj) →
        r1.year = r2.year → r1.month = r2.month →
        requestKey r1 = requestKey r2)
    ∧ (∀ (V : Type) (now1 now2 : Int) (m : CacheMap V) (r1 r2 : ScrapeRequest)
         (v : V) (c : String),
        sanitizeCNPJ (some r1.cnpj) = some c →
        sanitizeCNPJ (some r2.cnpj) = some c →
        r1.year = r2.year → r1.month = r2.month →
        ¬ c.length < 11 → now2 - now1 ≤ CACHE_TTL →
        (handleScrape now2 (setToCache now1 m (requestKey r1) v) r2).1
          = ScrapeResponse.cachedHit v) := by
  constructor
  · intro r1 r2 hs hy hm
    unfold requestKey
    rw [hs, hy, hm]
  · intro V now1 now2 m r1 r2 v c h1 h2 hy hm hlen httl
    have hkey : requestKey r1 = makeKey (some c) r2.year r2.month := by
      unfold requestKey
      rw [h1, hy, hm]
    have hget : mapGet (setToCache now1 m (requestKey r1) v)
        (makeKey (some c) r2.year r2.month) = some ⟨now1, v⟩ := by
      rw [← hkey]
      simp only [setToCache]
      exact mapGet_mapSet_self _ _ _
    have hcache : (getFromCache now2 (setToCache now1 m (requestKey r1) v)
        (makeKey (some c) r2.year r2.month)).1 = some v := by
      simp [getFromCache, hget, not_lt.mpr httl]
    simp only [handleScrape, h2]
    rw [if_neg hlen]
    cases hpair : getFromCache now2 (setToCache now1 m (requestKey r1) v)
        (makeKey (some c) r2.year r2.month) with
    | mk fst snd =>
        rw [hpair] at hcache
        simp only at hcache
        subst hcache
        rfl

/-- Witness for C10 at two requests that differ only in engine and headless
flag. -/
theorem C10_key_ignores_engine_witness :
    requestKey demoReq1 = requestKey demoReq2
    ∧ (handleScrape 1000
        (setToCache 0 ([] : CacheMap String) (requestKey demoReq1) "resultado")
        demoReq2).1 = ScrapeResponse.cachedHit "resultado"
    ∧ demoReq1.engine ≠ demoReq2.engine
    ∧ scriptFor demoReq1.engine ≠ scriptFor demoReq2.engine :=
  ⟨C10_key_ignores_engine.1 demoReq1 demoReq2 (by decide) rfl rfl,
   C10_key_ignores_engine.2 String 0 1000 [] demoReq1 demoReq2 "resultado"
     "12345678000195" (by decide) (by decide) rfl rfl (by decide) (by decide),
   by decide, by decide⟩
